import Mathlib
/-!
# Verification of the tilda-book-scraper chapter discovery and extraction core
Shallow embedding, in Lean 4, of the scrape-side core of the
`tilda-book-scraper` repository (`src/scrape.ts`, `src/utils.ts`), together
with proofs of the testable properties stated in the repository's
specification.  Strings are modelled as `List Char` (`Str`), so that every
definition is executable and every concrete statement is decidable.
-/

namespace TildaBook

/-- JavaScript strings are modelled as lists of characters. -/
abbrev Str := List Char

/-- Characters stripped by JavaScript `String.prototype.trim`
(ECMA-262 WhiteSpace and LineTerminator sets). -/
def isJsWhitespace (c : Char) : Bool :=
  c == ' ' || c == '\t' || c == '\n' || c == '\r' ||
  c.val == 0x0B || c.val == 0x0C || c.val == 0xA0 || c.val == 0xFEFF ||
  c.val == 0x1680 || (0x2000 ≤ c.val && c.val ≤ 0x200A) ||
  c.val == 0x2028 || c.val == 0x2029 || c.val == 0x202F || c.val == 0x205F ||
  c.val == 0x3000

/-- JavaScript `s.trim()`: strip leading and trailing whitespace. -/
def jsTrim (s : Str) : Str :=
  ((s.dropWhile isJsWhitespace).reverse.dropWhile isJsWhitespace).reverse

/-- JavaScript `s.includes(pat)`: substring containment. -/
def strContains : Str → Str → Bool
  | [], pat => pat.isEmpty
  | c :: rest, pat => pat.isPrefixOf (c :: rest) || strContains rest pat

/-- JavaScript `s.startsWith(pre)`. -/
def strStartsWith (s pre : Str) : Bool :=
  pre.isPrefixOf s

/-!
## Content deduplication (`src/utils.ts`, `deduplicateContentParts`)

The dedup key of a fragment is computed, as in the source's
`createElementFromHTML` path, from the trimmed fragment: if it contains
`<img` and a `src="..."` attribute match, the key is the captured `src`
value; otherwise it is the fragment with all `<...>` tags stripped
(regex `/<[^>]*>/g`), trimmed.
-/

/-- First match of the JavaScript regex `/src="([^"]+)"/` in `s`:
scan left to right for `src="`, then capture the maximal nonempty run of
characters other than `"`, which must be terminated by a closing `"`. -/
def findSrc : Str → Option Str
  | [] => none
  | c :: rest =>
    if strStartsWith (c :: rest) "src=\"".data then
      let after := (c :: rest).drop 5
      let g := after.takeWhile (fun x => x != '"')
      let rem := after.dropWhile (fun x => x != '"')
      if g ≠ [] ∧ rem ≠ [] then some g else findSrc rest
    else findSrc rest

/-- JavaScript `html.replace(/<[^>]*>/g, '')`: every substring that starts
at a `<` and runs to the next `>` (inclusive) is removed; a `<` with no
following `>` anywhere is kept verbatim, as the regex cannot match it. -/
def stripTags : Str → Str
  | [] => []
  | c :: rest =>
    if c = '<' then
      if rest.contains '>' then
        stripTags ((rest.dropWhile (fun x => x != '>')).tail)
      else
        c :: rest
    else
      c :: stripTags rest
termination_by s => s.length
decreasing_by
  all_goals simp_wf
  have h1 : (rest.dropWhile (fun x => x != '>')).length ≤ rest.length :=
    (List.dropWhile_suffix _).length_le
  omega

/-- Dedup key of an already-trimmed fragment, following the source: if the
fragment contains `<img` and a `src="..."` match, the key is the image
source; otherwise it is the tag-stripped, trimmed text content. -/
def dedupKey (t : Str) : Str :=
  if strContains t "<img".data then
    match findSrc t with
    | some g => g
    | none => jsTrim (stripTags t)
  else jsTrim (stripTags t)

/-- The effective key of a raw fragment in `deduplicateContentParts`:
`none` when the fragment is dropped unconditionally (empty after trimming,
or empty key), `some k` when it competes under key `k`. -/
def fragKey (p : Str) : Option Str :=
  let t := jsTrim p
  if t = [] then none
  else
    let k := dedupKey t
    if k = [] then none else some k

/-- The filter loop of `deduplicateContentParts`, with the mutable `seen`
set made explicit as an accumulator. -/
def dedupeGo (seen : List Str) : List Str → List Str
  | [] => []
  | p :: ps =>
    match fragKey p with
    | none => dedupeGo seen ps
    | some k => if k ∈ seen then dedupeGo seen ps else p :: dedupeGo (k :: seen) ps

/-- `deduplicateContentParts` from `src/utils.ts`: keep the first fragment
for each dedup key, dropping empty fragments and later duplicates. -/
def deduplicateContentParts (contentParts : List Str) : List Str :=
  dedupeGo [] contentParts

/-!
## Traversal mode selection (`src/scrape.ts` lines 41-43 and 489, claim C5)
-/

/-- Minimum number of links to consider a page as a table of contents
(`src/scrape.ts` line 43). -/
def TOC_LINK_THRESHOLD : Nat := 20

/-- The two traversal strategies of `main`. -/
inductive TraversalMode
  | toc
  | nav

/-- Mode selection in `main` (line 489): TOC mode exactly when
`links.length > TOC_LINK_THRESHOLD`. -/
def selectTraversalMode (links : List Str) : TraversalMode :=
  if links.length > TOC_LINK_THRESHOLD then TraversalMode.toc else TraversalMode.nav

/-!
## URL resolution in TOC harvesting (claim C4)

`extractTocLinks` (src/scrape.ts lines 305-309) resolves a non-absolute
href as `baseUrl + href` or `baseUrl + '/' + href`, where `baseUrl` is
`getBaseUrl(startUrl)` (src/scrape.ts line 437), i.e. the origin only.
-/

/-- `getBaseUrl` from `src/utils.ts` lines 79-82:
`new URL(url).protocol + '//' + new URL(url).host`.  The platform URL parse
is modelled for well-formed http(s) URLs without userinfo: the scheme is
everything before the first ':', the host everything after '://' up to the
next '/', '?' or '#'. -/
def getBaseUrl (url : Str) : Str :=
  let scheme := url.takeWhile (fun c => c != ':')
  let afterScheme := (url.dropWhile (fun c => c != ':')).drop 3
  let host := afterScheme.takeWhile (fun c => c != '/' && c != '?' && c != '#')
  scheme ++ "://".data ++ host

/-- Href resolution inside `extractTocLinks` (src/scrape.ts lines 305-309):
absolute hrefs pass through; everything else is concatenated onto the
(origin-only) base URL. -/
def resolveTocHref (baseUrl href : Str) : Str :=
  if strStartsWith href "http".data then href
  else if strStartsWith href "/".data then baseUrl ++ href
  else baseUrl ++ "/".data ++ href

/-!
## Glob pattern matching (`src/utils.ts` `globToRegex`, claim C10)

`globToRegex` escapes every regex metacharacter of the pattern, then maps
`**` to `.*`, `*` to `[^/]*` and `?` to `[^/]`, and anchors the whole regex
with `^...$`.  The embedding tokenizes the pattern exactly as the chain of
`replace` calls does (leftmost, non-overlapping `**` first) and defines the
anchored matching relation of the resulting regex directly: a literal
matches itself, `[^/]` matches any single character other than '/', `[^/]*`
any run of such characters, and `.*` any run of non-line-terminator
characters. `RegExp.test` is satisfiability of that relation on the whole
string. -/

/-- Tokens of the regex produced by `globToRegex`. -/
inductive GlobTok
  | lit (c : Char)
  | star
  | question
  | globstar
deriving DecidableEq

/-- Tokenization of a glob pattern: leftmost non-overlapping `**` becomes
`globstar` (the `{{GLOBSTAR}}` placeholder), remaining `*` become `star`,
`?` becomes `question`, and every other character a literal. -/
def globTokens : List Char → List GlobTok
  | [] => []
  | [c] =>
    if c = '*' then [GlobTok.star]
    else if c = '?' then [GlobTok.question]
    else [GlobTok.lit c]
  | c1 :: c2 :: rest =>
    if c1 = '*' ∧ c2 = '*' then GlobTok.globstar :: globTokens rest
    else if c1 = '*' then GlobTok.star :: globTokens (c2 :: rest)
    else if c1 = '?' then GlobTok.question :: globTokens (c2 :: rest)
    else GlobTok.lit c1 :: globTokens (c2 :: rest)

/-- Line terminators, which JavaScript's `.` does not match. -/
def isLineTerm (c : Char) : Bool :=
  c == '\n' || c == '\r' || c.val == 0x2028 || c.val == 0x2029

/-- Anchored matching of the token list against a string; `RegExp.test` of
the regex built by `globToRegex`. -/
def globMatch : List GlobTok → Str → Bool
  | [], [] => true
  | [], _ :: _ => false
  | GlobTok.lit _ :: _, [] => false
  | GlobTok.lit c :: ts, x :: xs => x == c && globMatch ts xs
  | GlobTok.question :: _, [] => false
  | GlobTok.question :: ts, x :: xs => x != '/' && globMatch ts xs
  | GlobTok.star :: ts, [] => globMatch ts []
  | GlobTok.star :: ts, x :: xs =>
    globMatch ts (x :: xs) || (x != '/' && globMatch (GlobTok.star :: ts) xs)
  | GlobTok.globstar :: ts, [] => globMatch ts []
  | GlobTok.globstar :: ts, x :: xs =>
    globMatch ts (x :: xs) || (!isLineTerm x && globMatch (GlobTok.globstar :: ts) xs)
termination_by ts s => (ts.length, s.length)

/-- Number of literal '/' tokens in a token list. -/
def countLitSlash (ts : List GlobTok) : Nat :=
  ts.countP (fun t => decide (t = GlobTok.lit '/'))

/-!
## Image index assignment (`src/scrape.ts` `scrapeChapter` lines 376-383,
claim C8)

`scrapeChapter` deduplicates the chapter's image URLs with
`[...new Set(imageUrls)]`, then maps each unique URL to an async download;
the callback reads and increments the module counter (`imageCounter++`)
synchronously, before the first `await`, so on the single-threaded event
loop all indices are assigned, in list order, before any fetch begins.
The download outcomes are an oracle parameter and cannot influence the
indices.
-/

/-- `[...new Set(xs)]`: first-occurrence deduplication by exact string. -/
def jsSetDedupGo (seen : List Str) : List Str → List Str
  | [] => []
  | u :: rest =>
    if u ∈ seen then jsSetDedupGo seen rest
    else u :: jsSetDedupGo (u :: seen) rest

/-- JavaScript `[...new Set(l)]`. -/
def jsSetDedup (l : List Str) : List Str :=
  jsSetDedupGo [] l

/-- Synchronous read-then-increment index assignment over the unique URL
list (the `const imgIndex = imageCounter++` line). -/
def assignImageIndices : List Str → Nat → List (Str × Nat) × Nat
  | [], counter => ([], counter)
  | u :: rest, counter =>
    let r := assignImageIndices rest (counter + 1)
    ((u, counter) :: r.1, r.2)

/-- The image fan-out of one chapter: dedupe the discovered URLs, assign
indices, then resolve each (url, index) pair through an arbitrary download
oracle; returns the (url, index, outcome) triples and the new counter. -/
def scrapeChapterImages (download : Str → Nat → Option Str)
    (imageUrls : List Str) (counter : Nat) :
    List (Str × Nat × Option Str) × Nat :=
  let assigned := assignImageIndices (jsSetDedup imageUrls) counter
  (assigned.1.map (fun p => (p.1, p.2, download p.1 p.2)), assigned.2)

/-!
## Navigation-mode traversal (`src/scrape.ts` `main` lines 506-523 and
`findNextChapterLink` lines 341-359, claim C9)

The while-loop scrapes the current URL, appends it to the run's chapters,
then asks `findNextChapterLink` for a next link; it continues exactly when
a next link exists and its URL is not already among the scraped chapters
(`!meta.chapters.some(c => c.url === nextUrl)`), and it has no iteration
cap.  The per-page harvest is an oracle `next : Str → Option Str`; the
embedding adds explicit fuel, with `none` meaning the fuel ran out — proved
unreachable whenever the harvester can only ever produce URLs from a finite
list. -/

/-- The navigation while-loop with explicit fuel.  `visited` is the list of
chapter URLs scraped so far (in order); the result is the final chapter URL
list, or `none` if the fuel was exhausted. -/
def navLoop (next : Str → Option Str) : Nat → Str → List Str → Option (List Str)
  | 0, _, _ => none
  | fuel + 1, current, visited =>
    let visited' := visited ++ [current]
    match next current with
    | none => some visited'
    | some n => if n ∈ visited' then some visited' else navLoop next fuel n visited'

/-- `findNextChapterLink` oracle for the witness: a two-page cycle
(page "a" links to "b", page "b" back to "a"); the cycle guard stops the
loop. -/
def cycleNext (u : Str) : Option Str :=
  if u = "a".data then some "b".data else some "a".data

/-!
## Tilda image URL transform (`src/utils.ts` lines 38-46) and image
resolution (`src/scrape.ts` `downloadImage` lines 154-176, `saveImage`
lines 178-193; claims C6, C7)
-/

/-- First match of the source regex at `src/utils.ts` line 40, which
captures the tild hash segment and the trailing filename of a placeholder
URL: a slash, then a non-slash run of length at least 5 starting with
"tild" (group 1), then the literal slash-dash-slash-"empty"-slash marker,
then a nonempty tail of non-line-terminator characters running to the end
of the string (group 2, as `.` does not match line terminators and the
anchor `$` only matches at the end).  The scan is leftmost, as JavaScript
`String.prototype.match` is. -/
def tildaMatch : Str → Option (Str × Str)
  | [] => none
  | c :: rest =>
    if c = '/' ∧ strStartsWith rest "tild".data then
      let g1 := rest.takeWhile (fun x => x != '/')
      let rem := rest.dropWhile (fun x => x != '/')
      if 5 ≤ g1.length ∧ strStartsWith rem "/-/empty/".data then
        let g2 := rem.drop 9
        if g2 ≠ [] ∧ g2.all (fun x => !isLineTerm x) then some (g1, g2)
        else tildaMatch rest
      else tildaMatch rest
    else tildaMatch rest

/-- `transformTildaImageUrl` from `src/utils.ts` lines 38-46: rewrite a
placeholder URL (containing "tildacdn.com" and the empty-marker path
segment) to the real
asset host, keeping the tild hash segment and the filename. -/
def transformTildaImageUrl (url : Str) : Str :=
  if strContains url "tildacdn.com".data && strContains url "/-/empty/".data then
    match tildaMatch url with
    | some (g1, g2) => "https://static.tildacdn.com/".data ++ g1 ++ "/".data ++ g2
    | none => url
  else url

/-- Outcome of one `fetch` call: success, non-success HTTP status
(`!response.ok`), or a thrown network error. -/
inductive FetchOutcome
  | ok
  | httpError
  | networkError
deriving DecidableEq

/-- Modelled from the spec: `ImageRunState` (spec section 3) and the
`ImageStats` run state that the current `scrape.ts` threads through
`downloadImage`/`saveImage` in place of the module-level `imageCounter`;
that revision of `scrape.ts` is present in the repository only through its
tests (`scrape.test.ts`, `createImageStats`), so the counter fields are
taken from the spec: `nextIndex` monotonically increasing and never
reused, `failedCount` counting failed resolutions. -/
structure ImageStats where
  nextIndex : Nat
  failedCount : Nat
deriving DecidableEq

/-- Local filename for image `index`:
`img-` + zero-padded-to-4 index + `.jpg` (src/scrape.ts line 180). -/
def imgFilename (index : Nat) : Str :=
  "img-".data ++
    (List.replicate (4 - (Nat.toDigits 10 index).length) '0' ++
      Nat.toDigits 10 index) ++ ".jpg".data

/-- `saveImage` (src/scrape.ts lines 178-193): persist the fetched bytes
under the index-derived filename; on a persistence error return null.
Modelled from the spec for the failure counter: on any failure path,
increment `failedCount` (spec section 4.3 step 6; asserted by the test
"returns null and increments counter on sharp error").  Persistence
success is an oracle `persistOk`. -/
def saveImage (persistOk : Bool) (index : Nat) (stats : ImageStats) :
    Option Str × ImageStats :=
  if persistOk then (some (imgFilename index), stats)
  else (none, { stats with failedCount := stats.failedCount + 1 })

/-- Result of one image resolution, with the list of URLs actually fetched
(in order) exposed so that the fallback policy is itself a statement. -/
structure DownloadResult where
  result : Option Str
  stats : ImageStats
  fetched : List Str

/-- `downloadImage` (src/scrape.ts lines 154-176): fetch the transformed
URL; on a non-success status, retry the original URL only when the
transform changed it; a thrown network error is caught and returns null
with no retry.  Fetch behavior is an oracle `fetch`.  Modelled from the
spec for the failure counter (spec section 4.3 step 6, and the tests
"returns null and increments counter when both URLs fail" / "... on
network error"): every failure path increments `failedCount` exactly once,
either here or inside `saveImage`; no path raises. -/
def downloadImage (fetch : Str → FetchOutcome) (persistOk : Bool)
    (url : Str) (index : Nat) (stats : ImageStats) : DownloadResult :=
  let actualUrl := transformTildaImageUrl url
  match fetch actualUrl with
  | FetchOutcome.ok =>
    let r := saveImage persistOk index stats
    ⟨r.1, r.2, [actualUrl]⟩
  | FetchOutcome.networkError =>
    ⟨none, { stats with failedCount := stats.failedCount + 1 }, [actualUrl]⟩
  | FetchOutcome.httpError =>
    if actualUrl ≠ url then
      match fetch url with
      | FetchOutcome.ok =>
        let r := saveImage persistOk index stats
        ⟨r.1, r.2, [actualUrl, url]⟩
      | _ =>
        ⟨none, { stats with failedCount := stats.failedCount + 1 },
          [actualUrl, url]⟩
    else
      ⟨none, { stats with failedCount := stats.failedCount + 1 }, [actualUrl]⟩

/-- A placeholder-pattern image URL (the transform changes it). -/
def placeholderUrl : Str :=
  "https://thb.tildacdn.com/tild1234/-/empty/photo.jpg".data

/-- Fetch oracle for the C6 counterexample: the transformed URL throws a
network error, every other URL (in particular the original) succeeds. -/
def cexFetch (u : Str) : FetchOutcome :=
  if u = transformTildaImageUrl placeholderUrl then FetchOutcome.networkError
  else FetchOutcome.ok

/-- Fetch oracle for the C6 amended witness: the transformed URL returns a
non-success status, everything else succeeds. -/
def fallbackFetch (u : Str) : FetchOutcome :=
  if u = transformTildaImageUrl placeholderUrl then FetchOutcome.httpError
  else FetchOutcome.ok

/-!
## TOC-mode traversal with fault isolation (claim C1)

The spec (sections 4.6 and 7) describes the TOC loop of the current
`scrape.ts`: per-link try/catch, a separate failures list, run completion
and metadata save regardless of individual chapter failures.  That revision
is present in the repository only through its tests and changelog (the
older `src/scrape.ts` loop at lines 493-501 still aborts through the outer
catch at lines 532-537), so the loop is modelled from the spec.
-/

/-- One successfully scraped chapter (spec section 3, `ChapterRecord`). -/
structure ChapterRecord where
  sequenceIndex : Nat
  url : Str
  title : Str
deriving DecidableEq

/-- One failed chapter: its index, URL and error message (spec section 7,
"Chapter-recoverable"). -/
structure FailureEntry where
  sequenceIndex : Nat
  url : Str
  message : Str
deriving DecidableEq

/-- Outcome of a TOC-mode run: the ordered chapters list and the separate
failures list, both of which are saved at `Finalizing`. -/
structure TocRunResult where
  chapters : List ChapterRecord
  failures : List FailureEntry
deriving DecidableEq

/-- Modelled from the spec: the failure-tolerant TOC traversal loop of the
current `scrape.ts` (spec section 4.6, `TocTraversal`), missing from
`src/`: "for each harvested link in order — load page, run Chapter
Extractor, assign sequenceIndex = loop position, append to `chapters` on
success or to a separate `failures` list on any exception from
load/extract".  Loading and extraction are an oracle
`load : Str → Except Str Str` returning the chapter title or the thrown
error message. -/
def tocTraverseGo (load : Str → Except Str Str) : Nat → List Str → TocRunResult
  | _, [] => ⟨[], []⟩
  | i, u :: rest =>
    let r := tocTraverseGo load (i + 1) rest
    match load u with
    | Except.ok t => ⟨⟨i, u, t⟩ :: r.chapters, r.failures⟩
    | Except.error m => ⟨r.chapters, ⟨i, u, m⟩ :: r.failures⟩

/-- Modelled from the spec: the whole TOC-mode traversal, starting at
sequence index 0. -/
def tocTraverse (load : Str → Except Str Str) (links : List Str) : TocRunResult :=
  tocTraverseGo load 0 links

/-- Load oracle for the C1 witness: link "l2" throws, the others load. -/
def witnessLoad (u : Str) : Except Str Str :=
  if u = "l2".data then Except.error "boom".data else Except.ok "t".data

/-!
## Properties of deduplication (claims C2, C3)
-/

theorem dedupeGo_cons_none {p : Str} (seen : List Str) (ps : List Str)
    (h : fragKey p = none) : dedupeGo seen (p :: ps) = dedupeGo seen ps := by
  simp [dedupeGo, h]

theorem dedupeGo_cons_mem {p k : Str} {seen : List Str} (ps : List Str)
    (h : fragKey p = some k) (hk : k ∈ seen) :
    dedupeGo seen (p :: ps) = dedupeGo seen ps := by
  simp [dedupeGo, h, hk]

theorem dedupeGo_cons_new {p k : Str} {seen : List Str} (ps : List Str)
    (h : fragKey p = some k) (hk : k ∉ seen) :
    dedupeGo seen (p :: ps) = p :: dedupeGo (k :: seen) ps := by
  simp [dedupeGo, h, hk]

theorem dedupeGo_sublist (X : List Str) :
    ∀ seen, List.Sublist (dedupeGo seen X) X := by
  induction X with
  | nil => intro seen; simp [dedupeGo]
  | cons p ps ih =>
    intro seen
    cases h : fragKey p with
    | none =>
      rw [dedupeGo_cons_none seen ps h]
      exact (ih seen).cons p
    | some k =>
      by_cases hk : k ∈ seen
      · rw [dedupeGo_cons_mem ps h hk]
        exact (ih seen).cons p
      · rw [dedupeGo_cons_new ps h hk]
        exact (ih (k :: seen)).cons₂ p

theorem dedupeGo_key_some (X : List Str) :
    ∀ seen p, p ∈ dedupeGo seen X → ∃ k, fragKey p = some k ∧ k ∉ seen := by
  induction X with
  | nil => intro seen p hp; simp [dedupeGo] at hp
  | cons q ps ih =>
    intro seen p hp
    cases h : fragKey q with
    | none =>
      rw [dedupeGo_cons_none seen ps h] at hp
      exact ih seen p hp
    | some k =>
      by_cases hk : k ∈ seen
      · rw [dedupeGo_cons_mem ps h hk] at hp
        exact ih seen p hp
      · rw [dedupeGo_cons_new ps h hk] at hp
        rcases List.mem_cons.mp hp with rfl | hp'
        · exact ⟨k, h, hk⟩
        · rcases ih (k :: seen) p hp' with ⟨k', hk', hnot⟩
          exact ⟨k', hk', fun hm => hnot (List.mem_cons_of_mem _ hm)⟩

theorem dedupeGo_keys_nodup (X : List Str) :
    ∀ seen, ((dedupeGo seen X).map fragKey).Nodup := by
  induction X with
  | nil => intro seen; simp [dedupeGo]
  | cons q ps ih =>
    intro seen
    cases h : fragKey q with
    | none =>
      rw [dedupeGo_cons_none seen ps h]
      exact ih seen
    | some k =>
      by_cases hk : k ∈ seen
      · rw [dedupeGo_cons_mem ps h hk]
        exact ih seen
      · rw [dedupeGo_cons_new ps h hk]
        rw [List.map_cons, List.nodup_cons]
        refine ⟨?_, ih (k :: seen)⟩
        intro hmem
        rcases List.mem_map.mp hmem with ⟨p, hp, hkey⟩
        rcases dedupeGo_key_some ps (k :: seen) p hp with ⟨k', hk', hnot⟩
        rw [hk', h] at hkey
        have : k' = k := Option.some.inj hkey
        exact hnot (this ▸ List.mem_cons_self k' seen)

theorem dedupeGo_find (X : List Str) :
    ∀ seen k, k ∉ seen →
      (dedupeGo seen X).find? (fun q => decide (fragKey q = some k)) =
        X.find? (fun q => decide (fragKey q = some k)) := by
  induction X with
  | nil => intro seen k _; simp [dedupeGo]
  | cons q ps ih =>
    intro seen k hk
    cases h : fragKey q with
    | none =>
      rw [dedupeGo_cons_none seen ps h, List.find?_cons]
      have hq : (decide (fragKey q = some k)) = false := by simp [h]
      rw [hq]
      exact ih seen k hk
    | some k' =>
      by_cases hk' : k' ∈ seen
      · rw [dedupeGo_cons_mem ps h hk']
        have hne : k' ≠ k := fun he => hk (he ▸ hk')
        rw [List.find?_cons]
        have hq : (decide (fragKey q = some k)) = false := by simp [h, hne]
        rw [hq]
        exact ih seen k hk
      · rw [dedupeGo_cons_new ps h hk']
        by_cases heq : k' = k
        · subst heq
          rw [List.find?_cons, List.find?_cons]
          have hq : (decide (fragKey q = some k')) = true := by simp [h]
          rw [hq]
        · rw [List.find?_cons, List.find?_cons]
          have hq : (decide (fragKey q = some k)) = false := by simp [h, heq]
          rw [hq]
          have hknot : k ∉ k' :: seen := by
            intro hm
            rcases List.mem_cons.mp hm with he | hm'
            · exact heq he.symm
            · exact hk hm'
          exact ih (k' :: seen) k hknot

/-- C2: `deduplicateContentParts` returns a subsequence of its input (every
survivor appears in the input, in input order); every survivor carries a
nonempty dedup key (fragments empty after trimming, or with an empty key,
are dropped); no two survivors share a key; and for every key, the unique
survivor with that key is exactly the first input fragment with that key
(first occurrence wins). -/
theorem deduplicateContentParts_subsequence_first_wins (X : List Str) :
    List.Sublist (deduplicateContentParts X) X ∧
    (∀ p ∈ deduplicateContentParts X, ∃ k, fragKey p = some k) ∧
    ((deduplicateContentParts X).map fragKey).Nodup ∧
    (∀ k : Str,
      (deduplicateContentParts X).find? (fun q => decide (fragKey q = some k)) =
        X.find? (fun q => decide (fragKey q = some k))) := by
  refine ⟨dedupeGo_sublist X [], ?_, dedupeGo_keys_nodup X [], ?_⟩
  · intro p hp
    rcases dedupeGo_key_some X [] p hp with ⟨k, hk, _⟩
    exact ⟨k, hk⟩
  · intro k
    exact dedupeGo_find X [] k (List.not_mem_nil k)

/-- Closed instance of C2 on a concrete fragment list with a duplicate:
the output is a subsequence of the two-element input. -/
theorem deduplicateContentParts_subsequence_first_wins_witness :
    List.Sublist (deduplicateContentParts ["<p>a</p>".data, "<p>a</p>".data])
      ["<p>a</p>".data, "<p>a</p>".data] :=
  (deduplicateContentParts_subsequence_first_wins
    ["<p>a</p>".data, "<p>a</p>".data]).1

theorem dedupeGo_idem (X : List Str) :
    ∀ seen, dedupeGo seen (dedupeGo seen X) = dedupeGo seen X := by
  induction X with
  | nil => intro seen; simp [dedupeGo]
  | cons q ps ih =>
    intro seen
    cases h : fragKey q with
    | none =>
      rw [dedupeGo_cons_none seen ps h]
      exact ih seen
    | some k =>
      by_cases hk : k ∈ seen
      · rw [dedupeGo_cons_mem ps h hk]
        exact ih seen
      · rw [dedupeGo_cons_new ps h hk]
        rw [dedupeGo_cons_new (dedupeGo (k :: seen) ps) h hk]
        rw [ih (k :: seen)]

/-- C3: deduplication is idempotent: running `deduplicateContentParts` on
its own output returns that output unchanged. -/
theorem deduplicateContentParts_idempotent (X : List Str) :
    deduplicateContentParts (deduplicateContentParts X) =
      deduplicateContentParts X :=
  dedupeGo_idem X []

/-- C5: the Controller enters TOC mode iff the filtered link count is
strictly greater than 20; a list of exactly 21 links selects TOC mode and a
list of exactly 20 links selects navigation mode. -/
theorem selectTraversalMode_threshold (links : List Str) :
    (selectTraversalMode links = TraversalMode.toc ↔ 20 < links.length) ∧
    selectTraversalMode (List.replicate 21 "u".data) = TraversalMode.toc ∧
    selectTraversalMode (List.replicate 20 "u".data) = TraversalMode.nav := by
  refine ⟨?_, ?_, ?_⟩
  · unfold selectTraversalMode TOC_LINK_THRESHOLD
    by_cases h : 20 < links.length
    · simp [h]
    · simp [h]
  · simp [selectTraversalMode, TOC_LINK_THRESHOLD]
  · simp [selectTraversalMode, TOC_LINK_THRESHOLD]

/-- C4 counterexample: resolving the document-relative href "page.html"
against the base derived from "https://example.com/dir/index.html" yields
"https://example.com/page.html" (the origin is used, together with a single
'/', so the directory path is lost), not the sibling URL
"https://example.com/dir/page.html" the claim requires. -/
theorem resolveTocHref_document_relative_cex :
    resolveTocHref (getBaseUrl "https://example.com/dir/index.html".data)
        "page.html".data = "https://example.com/page.html".data ∧
    resolveTocHref (getBaseUrl "https://example.com/dir/index.html".data)
        "page.html".data ≠ "https://example.com/dir/page.html".data := by
  constructor
  · decide
  · decide

/-- C4 amended: document-relative hrefs (not starting with "http", "/" or
"#") are resolved against the origin of the start URL (protocol + host, no
path): the result is always `getBaseUrl startUrl ++ "/" ++ href`, so
resolving "page.html" against a base whose path ends in a document yields
the origin sibling, not the directory sibling. -/
theorem resolveTocHref_origin_based (startUrl href : Str)
    (h1 : strStartsWith href "http".data = false)
    (h2 : strStartsWith href "/".data = false)
    (_h3 : strStartsWith href "#".data = false) :
    resolveTocHref (getBaseUrl startUrl) href =
      getBaseUrl startUrl ++ "/".data ++ href := by
  unfold resolveTocHref
  rw [h1, h2]
  simp

/-- Closed instance of C4's amended statement at the spec's own example
inputs. -/
theorem resolveTocHref_origin_based_witness :
    resolveTocHref (getBaseUrl "https://example.com/dir/index.html".data)
        "page.html".data =
      getBaseUrl "https://example.com/dir/index.html".data ++ "/".data ++
        "page.html".data :=
  resolveTocHref_origin_based "https://example.com/dir/index.html".data
    "page.html".data (by decide) (by decide) (by decide)

theorem globTokens_no_wildcard (p : Str) (hstar : '*' ∉ p) (hq : '?' ∉ p) :
    globTokens p = p.map GlobTok.lit := by
  induction p using globTokens.induct with
  | case1 => simp [globTokens]
  | case2 => exact absurd (List.mem_singleton_self '*') hstar
  | case3 _ => exact absurd (List.mem_singleton_self '?') hq
  | case4 c h1 h2 => simp [globTokens, h1, h2]
  | case5 c1 c2 rest hc _ =>
    exact absurd (hc.1 ▸ List.mem_cons_self c1 (c2 :: rest)) hstar
  | case6 c2 rest _ _ =>
    exact absurd (List.mem_cons_self '*' (c2 :: rest)) hstar
  | case7 c2 rest _ _ _ =>
    exact absurd (List.mem_cons_self '?' (c2 :: rest)) hq
  | case8 c1 c2 rest hc h1 h2 ih =>
    have hstar' : '*' ∉ c2 :: rest := fun h => hstar (List.mem_cons_of_mem c1 h)
    have hq' : '?' ∉ c2 :: rest := fun h => hq (List.mem_cons_of_mem c1 h)
    rw [globTokens, if_neg hc, if_neg h1, if_neg h2, ih hstar' hq']
    simp

theorem globMatch_map_lit (p : Str) :
    ∀ s : Str, globMatch (p.map GlobTok.lit) s = true ↔ s = p := by
  induction p with
  | nil =>
    intro s
    cases s with
    | nil => simp [globMatch]
    | cons x xs => simp [globMatch]
  | cons c cs ih =>
    intro s
    cases s with
    | nil => simp [globMatch]
    | cons x xs =>
      rw [List.map_cons]
      rw [show globMatch (GlobTok.lit c :: cs.map GlobTok.lit) (x :: xs) =
        (x == c && globMatch (cs.map GlobTok.lit) xs) from by rw [globMatch]]
      simp only [Bool.and_eq_true, beq_iff_eq, ih xs, List.cons.injEq]

/-- If the pattern contains no `**`, its token list contains no globstar and
its literal '/' tokens are exactly the '/' characters of the pattern. -/
theorem globTokens_no_globstar (p : Str) :
    ∀ _h : strContains p "**".data = false,
      GlobTok.globstar ∉ globTokens p ∧
        countLitSlash (globTokens p) = p.count '/' := by
  induction p using globTokens.induct with
  | case1 => intro _; simp [globTokens, countLitSlash]
  | case2 => intro _; simp [globTokens, countLitSlash, List.count_singleton]
  | case3 _ => intro _; simp [globTokens, countLitSlash, List.count_singleton]
  | case4 c h1 h2 =>
    intro _
    constructor
    · simp [globTokens, h1, h2]
    · simp [globTokens, h1, h2, countLitSlash, List.count_singleton, List.countP_cons]
  | case5 c1 c2 rest hc _ =>
    intro hcontains
    exfalso
    rcases hc with ⟨rfl, rfl⟩
    simp [strContains, List.isPrefixOf] at hcontains
  | case6 c2 rest hc ih =>
    intro hcontains
    have hrest : strContains (c2 :: rest) "**".data = false := by
      simp [strContains] at hcontains
      simp [strContains, hcontains.2]
    rcases ih hrest with ⟨hng, hcount⟩
    have hc1 : ¬('*' : Char) = '?' := by decide
    constructor
    · rw [globTokens, if_neg hc, if_pos rfl]
      intro h
      rcases List.mem_cons.mp h with h' | h'
      · exact GlobTok.noConfusion h'
      · exact hng h'
    · rw [globTokens, if_neg hc, if_pos rfl]
      rw [countLitSlash, List.countP_cons, List.count_cons]
      rw [countLitSlash] at hcount
      rw [hcount]
      simp
  | case7 c2 rest hc hq ih =>
    intro hcontains
    have hrest : strContains (c2 :: rest) "**".data = false := by
      simp [strContains] at hcontains
      simp [strContains, hcontains.2]
    rcases ih hrest with ⟨hng, hcount⟩
    constructor
    · rw [globTokens, if_neg hc, if_neg hq, if_pos rfl]
      intro h
      rcases List.mem_cons.mp h with h' | h'
      · exact GlobTok.noConfusion h'
      · exact hng h'
    · rw [globTokens, if_neg hc, if_neg hq, if_pos rfl]
      rw [countLitSlash, List.countP_cons, List.count_cons]
      rw [countLitSlash] at hcount
      rw [hcount]
      simp
  | case8 c1 c2 rest hc h1 h2 ih =>
    intro hcontains
    have hrest : strContains (c2 :: rest) "**".data = false := by
      simp [strContains] at hcontains
      simp [strContains, hcontains.2]
    rcases ih hrest with ⟨hng, hcount⟩
    constructor
    · rw [globTokens, if_neg hc, if_neg h1, if_neg h2]
      intro h
      rcases List.mem_cons.mp h with h' | h'
      · exact GlobTok.noConfusion h'
      · exact hng h'
    · rw [globTokens, if_neg hc, if_neg h1, if_neg h2]
      rw [countLitSlash, List.countP_cons, List.count_cons]
      rw [countLitSlash] at hcount
      rw [hcount]
      by_cases hcs : c1 = '/'
      · simp [hcs]
      · have hne : ¬(GlobTok.lit c1 = GlobTok.lit '/') := by
          intro h
          exact hcs (GlobTok.lit.inj h)
        simp [hne, hcs]

theorem globMatch_slash_count :
    ∀ ts s, GlobTok.globstar ∉ ts → globMatch ts s = true →
      s.count '/' = countLitSlash ts := by
  intro ts s
  induction ts, s using globMatch.induct with
  | case1 =>
    intro _ _
    simp [countLitSlash]
  | case2 head tail =>
    intro _ h
    rw [globMatch] at h
    exact absurd h (by simp)
  | case3 c tail =>
    intro _ h
    rw [globMatch] at h
    exact absurd h (by simp)
  | case4 c ts x xs ih =>
    intro hn h
    rw [globMatch] at h
    rw [Bool.and_eq_true] at h
    rcases h with ⟨hxc, hm⟩
    have hng : GlobTok.globstar ∉ ts := fun hm' => hn (List.mem_cons_of_mem _ hm')
    have hrec := ih hng hm
    have hx : x = c := by simpa using hxc
    subst hx
    rw [List.count_cons, countLitSlash, List.countP_cons]
    rw [countLitSlash] at hrec
    rw [hrec]
    by_cases hc : x = '/'
    · simp [hc]
    · simp [hc, Ne.symm hc]
  | case5 tail =>
    intro _ h
    rw [globMatch] at h
    exact absurd h (by simp)
  | case6 ts x xs ih =>
    intro hn h
    rw [globMatch] at h
    rw [Bool.and_eq_true] at h
    rcases h with ⟨hxc, hm⟩
    have hng : GlobTok.globstar ∉ ts := fun hm' => hn (List.mem_cons_of_mem _ hm')
    have hrec := ih hng hm
    have hx : x ≠ '/' := by simpa using hxc
    rw [List.count_cons, countLitSlash, List.countP_cons]
    rw [countLitSlash] at hrec
    rw [hrec]
    simp [hx, Ne.symm hx]
  | case7 ts ih =>
    intro hn h
    rw [globMatch] at h
    have hng : GlobTok.globstar ∉ ts := fun hm' => hn (List.mem_cons_of_mem _ hm')
    have hrec := ih hng h
    rw [countLitSlash, List.countP_cons]
    rw [countLitSlash] at hrec
    rw [← hrec]
    simp
  | case8 ts x xs ih1 ih2 =>
    intro hn h
    rw [globMatch] at h
    have hng : GlobTok.globstar ∉ ts := fun hm' => hn (List.mem_cons_of_mem _ hm')
    rw [Bool.or_eq_true] at h
    rcases h with h1 | h2
    · have hrec := ih1 hng h1
      rw [hrec]
      simp [countLitSlash, List.countP_cons]
    · rw [Bool.and_eq_true] at h2
      rcases h2 with ⟨hxc, hm⟩
      have hx : x ≠ '/' := by simpa using hxc
      have hrec := ih2 hn hm
      rw [List.count_cons, hrec]
      simp [hx]
  | case9 ts _ =>
    intro hn _
    exact absurd (List.mem_cons_self _ _) hn
  | case10 ts x xs _ _ =>
    intro hn _
    exact absurd (List.mem_cons_self _ _) hn

theorem strContains_double_slash_count (s : Str) :
    strContains s "//".data = true → 2 ≤ s.count '/' := by
  induction s with
  | nil => intro h; simp [strContains] at h
  | cons c rest ih =>
    intro h
    rw [strContains] at h
    rw [Bool.or_eq_true] at h
    rcases h with h1 | h2
    · cases rest with
      | nil => simp [List.isPrefixOf] at h1
      | cons d t =>
        simp [List.isPrefixOf] at h1
        rcases h1 with ⟨rfl, rfl⟩
        simp [List.count_cons]
    · have := ih h2
      rw [List.count_cons]
      omega

/-- C10 counterexample: the glob pattern "https:*/*/x" contains neither
`**` nor `//`, yet its regex matches the absolute URL "https://x" (which
contains "://"): single `*` segments can sit between two literal slashes
and match the empty string, producing adjacent slashes. -/
theorem globToRegex_url_match_cex :
    globMatch (globTokens "https:*/*/x".data) "https://x".data = true ∧
    strContains "https:*/*/x".data "**".data = false ∧
    strContains "https:*/*/x".data "//".data = false ∧
    strContains "https://x".data "://".data = true := by
  refine ⟨?_, by decide, by decide, by decide⟩
  simp [globMatch, globTokens, isLineTerm]

/-- C10 amended: the regex built by `globToRegex` is fully anchored — a
pattern with no `*` and no `?` matches exactly itself; a single `*` or `?`
never matches '/', so for a pattern without `**` every matched string has
exactly as many '/' characters as the pattern; hence a pattern without `**`
and with fewer than two '/' characters can never match any string
containing "//" (in particular no absolute URL, which contains "://"). -/
theorem globToRegex_anchored_no_globstar (p s : Str) :
    (('*' ∉ p ∧ '?' ∉ p) → (globMatch (globTokens p) s = true ↔ s = p)) ∧
    (strContains p "**".data = false → globMatch (globTokens p) s = true →
      s.count '/' = p.count '/') ∧
    (strContains p "**".data = false → p.count '/' < 2 →
      strContains s "//".data = true → globMatch (globTokens p) s = false) := by
  refine ⟨?_, ?_, ?_⟩
  · rintro ⟨hstar, hq⟩
    rw [globTokens_no_wildcard p hstar hq]
    exact globMatch_map_lit p s
  · intro hng hm
    rcases globTokens_no_globstar p hng with ⟨hnogs, hcount⟩
    rw [globMatch_slash_count (globTokens p) s hnogs hm] at *
    exact hcount
  · intro hng hlt hss
    rcases globTokens_no_globstar p hng with ⟨hnogs, hcount⟩
    by_contra hmatch
    rw [Bool.not_eq_false] at hmatch
    have h1 := globMatch_slash_count (globTokens p) s hnogs hmatch
    have h2 := strContains_double_slash_count s hss
    rw [hcount] at h1
    omega

/-- Closed instances of the amended C10: "ab" matches only itself, a
matched string has the pattern's slash count, and a one-slash pattern
cannot match a string with adjacent slashes. -/
theorem globToRegex_anchored_no_globstar_witness :
    globMatch (globTokens "ab".data) "ab".data = true ∧
    "x/y".data.count '/' = "*/y".data.count '/' ∧
    globMatch (globTokens "a*b".data) "a//b".data = false := by
  refine ⟨?_, ?_, ?_⟩
  · exact ((globToRegex_anchored_no_globstar "ab".data "ab".data).1
      (by constructor <;> decide)).mpr rfl
  · exact (globToRegex_anchored_no_globstar "*/y".data "x/y".data).2.1
      (by decide) (by simp [globMatch, globTokens, isLineTerm])
  · exact (globToRegex_anchored_no_globstar "a*b".data "a//b".data).2.2
      (by decide) (by decide) (by decide)

theorem assignImageIndices_spec (l : List Str) :
    ∀ k, (assignImageIndices l k).1.map Prod.snd = List.range' k l.length ∧
      (assignImageIndices l k).1.map Prod.fst = l ∧
      (assignImageIndices l k).2 = k + l.length := by
  induction l with
  | nil => intro k; simp [assignImageIndices]
  | cons u rest ih =>
    intro k
    rcases ih (k + 1) with ⟨h1, h2, h3⟩
    refine ⟨?_, ?_, ?_⟩
    · simp [assignImageIndices, h1, List.range'_succ]
    · simp [assignImageIndices, h2]
    · simp [assignImageIndices, h3]
      omega

/-- C8: for a chapter with N distinct image URLs, the assigned indices are
exactly the consecutive block `{k, k+1, ..., k+N-1}` (as the list
`range' k N`), each used exactly once, for every download oracle — i.e.
regardless of which resolutions later succeed or fail — and the counter
advances by exactly N. -/
theorem scrapeChapterImages_indices_consecutive
    (download : Str → Nat → Option Str) (imageUrls : List Str) (k : Nat) :
    ((scrapeChapterImages download imageUrls k).1.map (fun r => r.2.1)) =
      List.range' k (jsSetDedup imageUrls).length ∧
    ((scrapeChapterImages download imageUrls k).1.map (fun r => r.2.1)).Nodup ∧
    (scrapeChapterImages download imageUrls k).2 =
      k + (jsSetDedup imageUrls).length := by
  rcases assignImageIndices_spec (jsSetDedup imageUrls) k with ⟨h1, _, h3⟩
  have hmap : ((scrapeChapterImages download imageUrls k).1.map (fun r => r.2.1)) =
      (assignImageIndices (jsSetDedup imageUrls) k).1.map Prod.snd := by
    simp [scrapeChapterImages, Function.comp]
  refine ⟨?_, ?_, ?_⟩
  · rw [hmap, h1]
  · rw [hmap, h1]
    exact List.nodup_range' _ _
  · simpa [scrapeChapterImages] using h3

theorem navLoop_succ_none {next : Str → Option Str} {current : Str}
    (f : Nat) (visited : List Str) (h : next current = none) :
    navLoop next (f + 1) current visited = some (visited ++ [current]) := by
  simp [navLoop, h]

theorem navLoop_succ_mem {next : Str → Option Str} {current n : Str}
    {visited : List Str} (f : Nat) (h : next current = some n)
    (hm : n ∈ visited ++ [current]) :
    navLoop next (f + 1) current visited = some (visited ++ [current]) := by
  simp [navLoop, h, hm]

theorem navLoop_succ_new {next : Str → Option Str} {current n : Str}
    {visited : List Str} (f : Nat) (h : next current = some n)
    (hm : n ∉ visited ++ [current]) :
    navLoop next (f + 1) current visited =
      navLoop next f n (visited ++ [current]) := by
  simp [navLoop, h, hm]

theorem navLoop_fuel_add (next : Str → Option Str) :
    ∀ fuel current visited r, navLoop next fuel current visited = some r →
      ∀ extra, navLoop next (fuel + extra) current visited = some r := by
  intro fuel
  induction fuel with
  | zero => intro current visited r h; simp [navLoop] at h
  | succ f ih =>
    intro current visited r h extra
    have hshape : f + 1 + extra = (f + extra) + 1 := by omega
    rw [hshape]
    cases hn : next current with
    | none =>
      rw [navLoop_succ_none f visited hn] at h
      rw [navLoop_succ_none (f + extra) visited hn]
      exact h
    | some n =>
      by_cases hm : n ∈ visited ++ [current]
      · rw [navLoop_succ_mem f hn hm] at h
        rw [navLoop_succ_mem (f + extra) hn hm]
        exact h
      · rw [navLoop_succ_new f hn hm] at h
        rw [navLoop_succ_new (f + extra) hn hm]
        exact ih n (visited ++ [current]) r h extra

theorem navLoop_isSome (S : List Str) (next : Str → Option Str)
    (hclosed : ∀ u v, next u = some v → v ∈ S) :
    ∀ fuel current visited, current ∈ S → current ∉ visited →
      visited.Nodup → (∀ x ∈ visited, x ∈ S) →
      S.length + 1 ≤ fuel + visited.length →
      (navLoop next fuel current visited).isSome := by
  intro fuel
  induction fuel with
  | zero =>
    intro current visited hcur hnotv hnd hsub hle
    exfalso
    have hcard : visited.toFinset.card = visited.length :=
      List.toFinset_card_of_nodup hnd
    have hsubset : visited.toFinset ⊆ S.toFinset := by
      intro x hx
      exact List.mem_toFinset.mpr (hsub x (List.mem_toFinset.mp hx))
    have h1 : visited.toFinset.card ≤ S.toFinset.card :=
      Finset.card_le_card hsubset
    have h2 : S.toFinset.card ≤ S.length := S.toFinset_card_le
    omega
  | succ f ih =>
    intro current visited hcur hnotv hnd hsub hle
    cases hn : next current with
    | none =>
      rw [navLoop_succ_none f visited hn]
      simp
    | some n =>
      by_cases hm : n ∈ visited ++ [current]
      · rw [navLoop_succ_mem f hn hm]
        simp
      · rw [navLoop_succ_new f hn hm]
        have hnd2 : (visited ++ [current]).Nodup := by
          rw [List.nodup_append]
          exact ⟨hnd, List.nodup_singleton current,
            by simpa [List.disjoint_singleton] using hnotv⟩
        have hsub2 : ∀ x ∈ visited ++ [current], x ∈ S := by
          intro x hx
          rcases List.mem_append.mp hx with hx2 | hx2
          · exact hsub x hx2
          · rw [List.mem_singleton.mp hx2]
            exact hcur
        have hnS : n ∈ S := hclosed current n hn
        have hle2 : S.length + 1 ≤ f + (visited ++ [current]).length := by
          rw [List.length_append, List.length_singleton]
          omega
        exact ih n (visited ++ [current]) hnS hm hnd2 hsub2 hle2

/-- C9: the navigation loop has no fixed iteration cap — its stopping
condition is only "no next link, or the next link already scraped" — and
whenever the harvester can only ever return URLs from a finite list `S`
that contains the start URL, the traversal terminates: fuel `|S| + 1`
already suffices, and any extra fuel leaves the result unchanged. -/
theorem navTraversal_terminates (S : List Str) (next : Str → Option Str)
    (startUrl : Str) (hstart : startUrl ∈ S)
    (hclosed : ∀ u v, next u = some v → v ∈ S) :
    (navLoop next (S.length + 1) startUrl []).isSome ∧
    ∀ extra, navLoop next (S.length + 1 + extra) startUrl [] =
      navLoop next (S.length + 1) startUrl [] := by
  have hsome : (navLoop next (S.length + 1) startUrl []).isSome := by
    apply navLoop_isSome S next hclosed (S.length + 1) startUrl [] hstart
    · simp
    · exact List.nodup_nil
    · intro x hx; simp at hx
    · simp
  refine ⟨hsome, ?_⟩
  intro extra
  rcases Option.isSome_iff_exists.mp hsome with ⟨r, hr⟩
  rw [hr]
  exact navLoop_fuel_add next (S.length + 1) startUrl [] r hr extra

/-- Closed instance of C9: on the two-page cycle the loop terminates with
fuel `|S| + 1 = 3`. -/
theorem navTraversal_terminates_witness :
    (navLoop cycleNext (["a".data, "b".data].length + 1) "a".data []).isSome :=
  (navTraversal_terminates ["a".data, "b".data] cycleNext "a".data
    (by simp)
    (by
      intro u v h
      rw [cycleNext] at h
      by_cases hu : u = "a".data
      · rw [if_pos hu] at h
        simp at h
        simp [← h]
      · rw [if_neg hu] at h
        simp at h
        simp [← h])).1

/-- C6 counterexample: for a placeholder-pattern URL whose transformed
fetch throws a network error while the original URL would succeed (and
persistence would succeed), `downloadImage` returns null and never fetches
the original: the thrown error is swallowed by the catch block, which
skips the fallback.  The claim's "network error or non-success status"
premise is therefore wrong for the network-error case. -/
theorem downloadImage_network_error_no_fallback_cex :
    transformTildaImageUrl placeholderUrl ≠ placeholderUrl ∧
    cexFetch (transformTildaImageUrl placeholderUrl) = FetchOutcome.networkError ∧
    cexFetch placeholderUrl = FetchOutcome.ok ∧
    (downloadImage cexFetch true placeholderUrl 0 ⟨0, 0⟩).result = none ∧
    (downloadImage cexFetch true placeholderUrl 0 ⟨0, 0⟩).fetched =
      [transformTildaImageUrl placeholderUrl] := by
  refine ⟨by decide, by decide, by decide, by decide, by decide⟩

/-- C6 amended: for a placeholder-pattern URL (transform changed it), if
the transformed fetch returns a non-success HTTP status and the original
fetch and persistence succeed, resolution returns the non-null local
identifier and `failedCount` is unchanged; and in general the fallback
fetch is attempted exactly when the first fetch returned a non-success
status and the transform actually changed the URL (an unchanged URL, a
successful first fetch, or a thrown network error gets no retry). -/
theorem downloadImage_fallback (fetch : Str → FetchOutcome) (url : Str)
    (index : Nat) (stats : ImageStats)
    (hchanged : transformTildaImageUrl url ≠ url)
    (hfirst : fetch (transformTildaImageUrl url) = FetchOutcome.httpError)
    (hsecond : fetch url = FetchOutcome.ok) :
    (downloadImage fetch true url index stats).result = some (imgFilename index) ∧
    (downloadImage fetch true url index stats).stats.failedCount =
      stats.failedCount ∧
    (∀ (f2 : Str → FetchOutcome) (p2 : Bool) (url2 : Str) (i2 : Nat)
        (st2 : ImageStats),
      (downloadImage f2 p2 url2 i2 st2).fetched =
        if transformTildaImageUrl url2 ≠ url2 ∧
            f2 (transformTildaImageUrl url2) = FetchOutcome.httpError
        then [transformTildaImageUrl url2, url2]
        else [transformTildaImageUrl url2]) := by
  refine ⟨?_, ?_, ?_⟩
  · simp [downloadImage, hfirst, hsecond, hchanged, saveImage]
  · simp [downloadImage, hfirst, hsecond, hchanged, saveImage]
  · intro f2 p2 url2 i2 st2
    cases hf : f2 (transformTildaImageUrl url2) with
    | ok =>
      simp [downloadImage, hf, saveImage]
    | networkError =>
      simp [downloadImage, hf]
    | httpError =>
      by_cases hch : transformTildaImageUrl url2 ≠ url2
      · cases hf2 : f2 url2 with
        | ok => simp [downloadImage, hf, hf2, hch, saveImage]
        | httpError => simp [downloadImage, hf, hf2, hch]
        | networkError => simp [downloadImage, hf, hf2, hch]
      · simp [downloadImage, hf, hch]

/-- Closed instance of the amended C6: the transformed fetch 404s, the
original succeeds, and resolution succeeds with `failedCount` unchanged. -/
theorem downloadImage_fallback_witness :
    (downloadImage fallbackFetch true placeholderUrl 2 ⟨3, 1⟩).result =
      some (imgFilename 2) ∧
    (downloadImage fallbackFetch true placeholderUrl 2 ⟨3, 1⟩).stats.failedCount
      = (1 : Nat) :=
  ⟨(downloadImage_fallback fallbackFetch placeholderUrl 2 ⟨3, 1⟩
      (by decide) (by decide) (by decide)).1,
   (downloadImage_fallback fallbackFetch placeholderUrl 2 ⟨3, 1⟩
      (by decide) (by decide) (by decide)).2.1⟩

/-- C7: for a placeholder-pattern URL, when both the transformed and the
original fetch fail — in either way — or persistence fails, `downloadImage`
returns null and increments `failedCount` by exactly 1 (not 2); being a
total function into `DownloadResult`, the model raises nothing. -/
theorem downloadImage_both_fail_soft (fetch : Str → FetchOutcome)
    (persistOk : Bool) (url : Str) (index : Nat) (stats : ImageStats)
    (hchanged : transformTildaImageUrl url ≠ url)
    (hfail : (fetch (transformTildaImageUrl url) ≠ FetchOutcome.ok ∧
        fetch url ≠ FetchOutcome.ok) ∨ persistOk = false) :
    (downloadImage fetch persistOk url index stats).result = none ∧
    (downloadImage fetch persistOk url index stats).stats.failedCount =
      stats.failedCount + 1 := by
  cases hf : fetch (transformTildaImageUrl url) with
  | ok =>
    have hp : persistOk = false := by
      rcases hfail with ⟨h1, _⟩ | hp
      · exact absurd hf h1
      · exact hp
    subst hp
    constructor
    · simp [downloadImage, hf, saveImage]
    · simp [downloadImage, hf, saveImage]
  | networkError =>
    constructor
    · simp [downloadImage, hf]
    · simp [downloadImage, hf]
  | httpError =>
    cases hf2 : fetch url with
    | ok =>
      have hp : persistOk = false := by
        rcases hfail with ⟨_, h2⟩ | hp
        · exact absurd hf2 h2
        · exact hp
      subst hp
      constructor
      · simp [downloadImage, hf, hf2, hchanged, saveImage]
      · simp [downloadImage, hf, hf2, hchanged, saveImage]
    | httpError =>
      constructor
      · simp [downloadImage, hf, hf2, hchanged]
      · simp [downloadImage, hf, hf2, hchanged]
    | networkError =>
      constructor
      · simp [downloadImage, hf, hf2, hchanged]
      · simp [downloadImage, hf, hf2, hchanged]

/-- Closed instance of C7: both forms of the placeholder URL 404; the
result is null and `failedCount` goes from 3 to exactly 4. -/
theorem downloadImage_both_fail_soft_witness :
    (downloadImage (fun _ => FetchOutcome.httpError) true placeholderUrl 5
      ⟨7, 3⟩).result = none ∧
    (downloadImage (fun _ => FetchOutcome.httpError) true placeholderUrl 5
      ⟨7, 3⟩).stats.failedCount = (4 : Nat) :=
  downloadImage_both_fail_soft (fun _ => FetchOutcome.httpError) true
    placeholderUrl 5 ⟨7, 3⟩ (by decide) (Or.inl ⟨by decide, by decide⟩)

theorem tocTraverseGo_all_ok (load : Str → Except Str Str) (links : List Str) :
    ∀ i, (∀ u ∈ links, (load u).isOk = true) →
      (tocTraverseGo load i links).failures = [] ∧
      (tocTraverseGo load i links).chapters.map (fun c => c.url) = links ∧
      (tocTraverseGo load i links).chapters.map (fun c => c.sequenceIndex) =
        List.range' i links.length := by
  induction links with
  | nil => intro i _; simp [tocTraverseGo]
  | cons u rest ih =>
    intro i hok
    have hu : (load u).isOk = true := hok u (List.mem_cons_self u rest)
    cases hl : load u with
    | error m => rw [hl] at hu; simp [Except.isOk, Except.toBool] at hu
    | ok t =>
      have hrest : ∀ v ∈ rest, (load v).isOk = true :=
        fun v hv => hok v (List.mem_cons_of_mem u hv)
      rcases ih (i + 1) hrest with ⟨h1, h2, h3⟩
      refine ⟨?_, ?_, ?_⟩
      · simp [tocTraverseGo, hl, h1]
      · simp [tocTraverseGo, hl, h2]
      · simp [tocTraverseGo, hl, h3, List.range'_succ]

theorem tocTraverseGo_mid (load : Str → Except Str Str) (post : List Str)
    (bad msg : Str) (hbad : load bad = Except.error msg) (pre : List Str) :
    ∀ i, (∀ u ∈ pre ++ post, (load u).isOk = true) →
      (tocTraverseGo load i (pre ++ bad :: post)).failures =
        [⟨i + pre.length, bad, msg⟩] ∧
      (tocTraverseGo load i (pre ++ bad :: post)).chapters.map (fun c => c.url) =
        pre ++ post ∧
      (tocTraverseGo load i (pre ++ bad :: post)).chapters.map
          (fun c => c.sequenceIndex) =
        List.range' i pre.length ++
          List.range' (i + pre.length + 1) post.length := by
  induction pre with
  | nil =>
    intro i hok
    have hpost : ∀ u ∈ post, (load u).isOk = true := by
      intro u hu
      exact hok u (by simpa using hu)
    rcases tocTraverseGo_all_ok load post (i + 1) hpost with ⟨h1, h2, h3⟩
    refine ⟨?_, ?_, ?_⟩
    · simp [tocTraverseGo, hbad, h1]
    · simp [tocTraverseGo, hbad, h2]
    · simp [tocTraverseGo, hbad, h3]
  | cons p pre' ih =>
    intro i hok
    have hp : (load p).isOk = true := hok p (by simp)
    cases hl : load p with
    | error m => rw [hl] at hp; simp [Except.isOk, Except.toBool] at hp
    | ok t =>
      have hok' : ∀ u ∈ pre' ++ post, (load u).isOk = true := by
        intro u hu
        apply hok
        rcases List.mem_append.mp hu with h | h
        · exact List.mem_cons_of_mem p (List.mem_append.mpr (Or.inl h))
        · exact List.mem_cons_of_mem p (List.mem_append.mpr (Or.inr h))
      rcases ih (i + 1) hok' with ⟨h1, h2, h3⟩
      have hidx : i + 1 + pre'.length = i + (pre'.length + 1) := by omega
      refine ⟨?_, ?_, ?_⟩
      · rw [List.cons_append]
        simp only [tocTraverseGo, hl]
        rw [h1, hidx]
        simp
      · rw [List.cons_append]
        simp only [tocTraverseGo, hl]
        simp [h2]
      · rw [List.cons_append]
        simp only [tocTraverseGo, hl]
        simp only [List.map_cons, h3]
        rw [List.length_cons, List.range'_succ]
        have hidx2 : i + 1 + pre'.length + 1 = i + (pre'.length + 1) + 1 := by
          omega
        rw [hidx2]
        simp

/-- C1: in TOC-mode traversal, when loading or extracting one link throws
while every other link succeeds, traversal continues to the remaining
links: the run completes with chapter records for all other links in input
order, keeping their loop positions as `sequenceIndex` (so with 3 links and
link 2 failing, the surviving records carry indices 0 and 2), and the
failures list holds exactly one entry — the failing link with its index and
message.  Already-scraped chapters are thus never discarded. -/
theorem tocTraverse_fault_isolation (load : Str → Except Str Str)
    (pre post : List Str) (bad msg : Str)
    (hok : ∀ u ∈ pre ++ post, (load u).isOk = true)
    (hbad : load bad = Except.error msg) :
    (tocTraverse load (pre ++ bad :: post)).failures =
      [⟨pre.length, bad, msg⟩] ∧
    (tocTraverse load (pre ++ bad :: post)).chapters.map (fun c => c.url) =
      pre ++ post ∧
    (tocTraverse load (pre ++ bad :: post)).chapters.map
        (fun c => c.sequenceIndex) =
      List.range' 0 pre.length ++ List.range' (pre.length + 1) post.length := by
  rcases tocTraverseGo_mid load post bad msg hbad pre 0 hok with ⟨h1, h2, h3⟩
  refine ⟨?_, h2, ?_⟩
  · simpa using h1
  · simpa using h3

/-- Closed instance of C1, the spec's 3-link scenario: link 2 fails; links
1 and 3 survive with sequence indices 0 and 2, and the failures list has
exactly the one entry for link 2 at index 1. -/
theorem tocTraverse_fault_isolation_witness :
    (tocTraverse witnessLoad ["l1".data, "l2".data, "l3".data]).failures =
      [⟨1, "l2".data, "boom".data⟩] ∧
    (tocTraverse witnessLoad ["l1".data, "l2".data, "l3".data]).chapters.map
        (fun c => c.url) = ["l1".data, "l3".data] ∧
    (tocTraverse witnessLoad ["l1".data, "l2".data, "l3".data]).chapters.map
        (fun c => c.sequenceIndex) = [0, 2] := by
  have h := tocTraverse_fault_isolation witnessLoad ["l1".data] ["l3".data]
    "l2".data "boom".data (by decide) (by rfl)
  refine ⟨?_, ?_, ?_⟩
  · simpa using h.1
  · simpa using h.2.1
  · simpa using h.2.2

end TildaBook
